import Mathlib

/-!
Verification of the hugo-crawler ingestion pipeline (`crawler-json.py`).

The Python program is shallowly embedded: pure string manipulation is
translated into executable Lean functions over `List Char` / `String`
(structural recursion only, so every definition reduces in the kernel),
and the effectful parts (HTTP, the HTML/XPath libraries, the filesystem)
are parameters of an explicit environment `Env`.  A per-run state `St`
records the image files on disk, the completion ledger
(`downloaded.log`) and an ordered event trace.
-/

set_option maxRecDepth 8192

namespace HugoCrawler

/-! ## String primitives

Models of the Python `str` operations used by the crawler, written over
`List Char` with structural recursion so that they compute by `decide`.
-/

/-- Model of `str.startswith`: `startsWithL pat l` is true when `pat` is
an initial segment of `l`. -/
def startsWithL : List Char → List Char → Bool
  | [], _ => true
  | _ :: _, [] => false
  | p :: ps, c :: cs => p == c && startsWithL ps cs

/-- String wrapper of `startsWithL` (Python `s.startswith p`). -/
def strStartsWith (s p : String) : Bool := startsWithL p.data s.data

/-- Model of `str.split(sep)` for a one-character separator. -/
def splitOnChar (sep : Char) : List Char → List (List Char)
  | [] => [[]]
  | c :: t =>
    let r := splitOnChar sep t
    if c = sep then [] :: r
    else
      match r with
      | [] => [[c]]
      | h :: t' => (c :: h) :: t'

/-- Model of `sep.join(parts)` for a one-character separator. -/
def intercalateChar (sep : Char) : List (List Char) → List Char
  | [] => []
  | [l] => l
  | l :: ls => l ++ sep :: intercalateChar sep ls

/-- Drop leading characters satisfying `p` (left strip). -/
def ddP (p : Char → Bool) (l : List Char) : List Char := l.dropWhile p

/-- Drop trailing characters satisfying `p` (right strip). -/
def rdP (p : Char → Bool) (l : List Char) : List Char :=
  (l.reverse.dropWhile p).reverse

/-- Model of Python `str.strip(chars)`: strip on both ends. -/
def stripP (p : Char → Bool) (l : List Char) : List Char := rdP p (ddP p l)

/-- Model of Python `str.strip()` (whitespace strip), as used by
`str(element).strip()` in `extract_field`. -/
def pyStrip (s : String) : String := String.mk (stripP Char.isWhitespace s.data)

/-- Model of `value.replace('"', '\\"')` from `create_markdown_file`. -/
def escapeQuotes : List Char → List Char
  | [] => []
  | c :: t => if c = '"' then '\\' :: '"' :: escapeQuotes t else c :: escapeQuotes t

/-- String wrapper of `escapeQuotes`. -/
def pyEscape (s : String) : String := String.mk (escapeQuotes s.data)

/-- Model of `os.path.basename` (posix): the component after the last `/`. -/
def pyBasename (s : String) : String :=
  String.mk ((splitOnChar '/' s.data).getLastD [])

/-- Model of `os.path.dirname` (posix): everything before the last `/`. -/
def pyDirname (s : String) : String :=
  String.mk (intercalateChar '/' ((splitOnChar '/' s.data).dropLast))

/-- Model of `url.split('?')[0]`: the part before the first `?`. -/
def beforeQuery (s : String) : String :=
  String.mk ((splitOnChar '?' s.data).headD [])

/-! ## `urllib.parse.urljoin` model

A model of `urljoin` restricted to the shapes this program exercises:
`http(s)` bases, and reference strings that are absolute URLs,
network-path (`//…`), absolute-path (`/…`) or plain relative references.
Dot-segment normalisation and query/fragment handling are not modelled
(never exercised by the crawler's call sites).
-/

/-- Split `scheme://rest` at the first `://`; `none` when the string has
no `://` (i.e. it carries no scheme in the program's sense). -/
def splitSchemeRest : List Char → Option (List Char × List Char)
  | ':' :: '/' :: '/' :: rest => some ([], rest)
  | [] => none
  | c :: rest =>
    match splitSchemeRest rest with
    | none => none
    | some (s, r) => some (c :: s, r)

/-- The network location of the part after `scheme://`. -/
def netlocOf (rest : List Char) : List Char := (splitOnChar '/' rest).headD []

/-- The path of the part after `scheme://` (empty when there is no `/`). -/
def pathOf (rest : List Char) : List Char :=
  match splitOnChar '/' rest with
  | [] => []
  | [_] => []
  | _ :: ps => '/' :: intercalateChar '/' ps

/-- The base path with its last segment removed, keeping the trailing
slash (the directory a relative reference is resolved inside). -/
def parentPathL (p : List Char) : List Char :=
  intercalateChar '/' ((splitOnChar '/' p).dropLast) ++ ['/']

/-- Model of `urllib.parse.urljoin base url`. -/
def urljoin (base url : String) : String :=
  match splitSchemeRest base.data with
  | none => url
  | some (scheme, rest) =>
    if url = "" then base
    else if strStartsWith url "//" then String.mk (scheme ++ ':' :: url.data)
    else if strStartsWith url "/" then
      String.mk (scheme ++ "://".data ++ netlocOf rest ++ url.data)
    else if (splitSchemeRest url.data).isSome then url
    else
      String.mk (scheme ++ "://".data ++ netlocOf rest ++
        parentPathL (pathOf rest) ++ url.data)

/-! ## `sanitize_filename` (crawler-json.py lines 137–150)

```python
sanitized = name.replace(' ', '-')
sanitized = re.sub(r'[^\w\-]', '', sanitized)
sanitized = re.sub(r'-+', '-', sanitized)
return sanitized.lower().strip('-')[:100]
```

The regex character class `\w` is modelled for ASCII input
(letters, digits and underscore), matching Python on every ASCII string;
`str.lower` is modelled by `Char.toLower` (ASCII case mapping).
-/

/-- Model of the `\w` regex class (ASCII): letter, digit or underscore. -/
def isWordChar (c : Char) : Bool := c.isAlphanum || c == '_'

/-- Characters kept by `re.sub(r'[^\w\-]', '', ·)`: word chars and `-`. -/
def isWordDash (c : Char) : Bool := isWordChar c || c == '-'

/-- First step of `sanitize_filename`: `name.replace(' ', '-')`. -/
def spaceToDash (c : Char) : Char := if c = ' ' then '-' else c

/-- Model of `re.sub(r'-+', '-', ·)`: collapse each run of dashes to one. -/
def collapseDashes : List Char → List Char
  | [] => []
  | [c] => [c]
  | a :: b :: rest =>
    if a = '-' ∧ b = '-' then collapseDashes (b :: rest)
    else a :: collapseDashes (b :: rest)

/-- Invariant used to reason about `collapseDashes`: the list contains
no two adjacent dashes. -/
def noDD : List Char → Bool
  | [] => true
  | [_] => true
  | a :: b :: rest => (!(a == '-') || !(b == '-')) && noDD (b :: rest)

/-- Whether a list starts with a dash. -/
def headDash : List Char → Bool
  | [] => false
  | c :: _ => c == '-'

/-- Left/right strip of `-`, i.e. Python `.strip('-')`. -/
def stripDashes (l : List Char) : List Char := stripP (fun c => c == '-') l

/-- Value of `sanitize_filename` before the final `[:100]` truncation. -/
def sanitizeCore (l : List Char) : List Char :=
  stripDashes
    ((collapseDashes ((l.map spaceToDash).filter isWordDash)).map Char.toLower)

/-- Model of `sanitize_filename` (crawler-json.py lines 137–150). -/
def sanitize_filename (name : String) : String :=
  String.mk ((sanitizeCore name.data).take 100)

/-! ## Data model -/

/-- One extraction rule from the JSON config.  The Python rule is a dict
that may lack the `xpath` or `attribute` key, hence the `Option`s.
(`attribute` is a Lean keyword, so the field is named `attr`.) -/
structure FieldRule where
  xpath : Option String
  attr : Option String
deriving DecidableEq

/-- The validated configuration: `project_root` and the `fields` mapping
(an association list; Python dict keys are unique). -/
structure Config where
  project_root : String
  fields : List (String × FieldRule)
deriving DecidableEq

/-- A `requests` response, as far as the crawler looks at it:
`text` is `response.text`; `url` is `response.url`, the URL *after*
redirects (the resolved URL). -/
structure HttpResp where
  text : String
  url : String
deriving DecidableEq

/-- A node produced by `tree.xpath(...)`: either an element — with its
attributes, its `get_text(strip=True)` text and its serialized markup —
or a bare text node. -/
inductive XNode where
  | elem (attrs : List (String × String)) (text : String) (outer : String)
  | textNode (v : String)
deriving DecidableEq

/-- Observable side effects of a run, in order of occurrence. -/
inductive Event where
  /-- Marker that `process_url` started on this URL (log line 239). -/
  | attempted (url : String)
  /-- An image was actually downloaded and saved under `name`. -/
  | imageDownloaded (url name : String)
  /-- A Markdown document was successfully written at `path`. -/
  | wrote (path : String)
  /-- The URL was appended to `downloaded.log`. -/
  | ledger (url : String)
deriving DecidableEq

/-- Mutable world state threaded through a run: the image files on disk
(full save paths), the completion-ledger contents, and the event trace. -/
structure St where
  files : List String
  ledger : List String
  events : List Event
deriving DecidableEq

/-- Environment of external behaviour: the network, the HTML libraries
and the failure modes of the filesystem calls.

* `http u = none` models a `requests` exception (network error or
  non-success status via `raise_for_status`), which `fetch_page_content`
  catches; `some r` is a successful response.
* `xpathEval html xp` models `etree.HTML(html).xpath(xp)` (an exception
  inside `extract_field` is equivalent to an empty result: both yield
  `None`).
* `imgSrcs html` models the `src` attributes of `soup.find_all('img')`
  (a missing attribute is encoded as `""`; Python treats `None` and
  `""` identically here, both are falsy).
* `soupRewrite html results` models the re-serialized soup after the
  per-image rewriting, given each image's `(src, local name?)` outcome.
* `mdConvert` models `markdownify`.
* `imageOk u` tells whether downloading image `u` succeeds.
* `mkdirFails d` tells whether `os.makedirs(d, exist_ok=True)` raises.
* `writeFails p` tells whether writing the document at `p` raises
  (caught inside `create_markdown_file`).
* `markFails` tells whether appending to `downloaded.log` raises
  (caught inside `mark_as_downloaded`).
* `today` is `datetime.now().strftime('%Y-%m-%d')`; `now` is the
  timestamp used for synthetic image names. -/
structure Env where
  http : String → Option HttpResp
  xpathEval : String → String → List XNode
  imgSrcs : String → List String
  soupRewrite : String → List (String × Option String) → String
  mdConvert : String → String
  imageOk : String → Bool
  mkdirFails : String → Bool
  writeFails : String → Bool
  markFails : Bool
  today : String
  now : String

/-- Result of a per-URL step: a returned value, or an uncaught Python
exception escaping the function. -/
inductive POutcome where
  | ok (b : Bool)
  | exn
deriving DecidableEq

/-! ## Source translations -/

set_option linter.unusedVariables false in
/-- Model of `mark_as_downloaded` (lines 79–87): append the URL to
`downloaded.log`; an I/O error is caught and merely logged.  The
`project_root` argument mirrors the Python signature; the model keeps a
single ledger in `St`. -/
def mark_as_downloaded (env : Env) (project_root url : String) (st : St) : St :=
  if env.markFails then st
  else { st with ledger := st.ledger ++ [url],
                 events := st.events ++ [Event.ledger url] }

/-- Model of `fetch_page_content` (lines 89–100): on success return
`(response.text, url)` — note the second component is the *argument*
`url`, not `response.url`; on a caught `RequestException` return
`(None, url)`. -/
def fetch_page_content (env : Env) (url : String) : Option String × String :=
  match env.http url with
  | some r => (some r.text, url)
  | none => (none, url)

/-- The spec's version of the fetcher (§4.3: “on success return the raw
response body as text plus the resolved URL”), for comparison with the
code's `fetch_page_content`. -/
def fetch_page_content_specResolved (env : Env) (url : String) :
    Option String × String :=
  match env.http url with
  | some r => (some r.text, r.url)
  | none => (none, url)

/-- Attribute dict of the BeautifulSoup *document* object that line 116
builds around the serialized element
(`BeautifulSoup(element_html, 'html.parser')`): a `BeautifulSoup` root
carries no attributes of its own, whatever the wrapped element's
attributes are, so this dict is empty. -/
def soupRootAttrs : List (String × String) := []

set_option linter.unusedVariables false in
/-- Model of `extract_field` (lines 102–135): evaluate the XPath, keep
the first result; text nodes are returned stripped; `text` / `html`
modes return the element's text / markup.  Any other mode reads
`element_soup.get(attribute, None)` (line 127) — but `element_soup` is
the BeautifulSoup *document root* wrapping the serialized element, not
the element itself, so the lookup is in `soupRootAttrs` (always empty):
the value is always `None`, and the relative-URL resolution at lines
129–130 (transcribed below) is unreachable. -/
def extract_field (env : Env) (html_content xpath attr base_url : String) :
    Option String :=
  match env.xpathEval html_content xpath with
  | [] => none
  | e :: _ =>
    match e with
    | XNode.textNode v => some (pyStrip v)
    | XNode.elem attrs text outer =>
      if attr = "text" then some text
      else if attr = "html" then some outer
      else
        match soupRootAttrs.lookup attr with
        | none => none
        | some v =>
          if v ≠ "" ∧ (attr = "src" ∨ attr = "href") ∧
              (strStartsWith v "/" ∨ ¬ strStartsWith v "http") then
            some (urljoin base_url v)
          else some v

/-- The spec's version of the attribute branch (§4.4: treat `attribute`
as an HTML attribute name and resolve a relative link/source value
against the base URL — also the evident intent of the code comment at
line 128): it reads the *element's own* attribute dict.  Kept for
comparison with the code's `extract_field`, whose line 127 queries the
document root instead. -/
def extract_field_specAttr (env : Env)
    (html_content xpath attr base_url : String) : Option String :=
  match env.xpathEval html_content xpath with
  | [] => none
  | e :: _ =>
    match e with
    | XNode.textNode v => some (pyStrip v)
    | XNode.elem attrs text outer =>
      if attr = "text" then some text
      else if attr = "html" then some outer
      else
        match attrs.lookup attr with
        | none => none
        | some v =>
          if v ≠ "" ∧ (attr = "src" ∨ attr = "href") ∧
              (strStartsWith v "/" ∨ ¬ strStartsWith v "http") then
            some (urljoin base_url v)
          else some v

/-- Resolution of a possibly-relative image URL (lines 162–163). -/
def resolveImageUrl (base_url image_url : String) : String :=
  if ¬ strStartsWith image_url "http" then urljoin base_url image_url
  else image_url

/-- The local filename `download_image` computes (lines 165–168): the
basename of the resolved URL with the query string stripped, or a
synthetic timestamp name when that is empty or has no `.`. -/
def computedImageName (env : Env) (image_url base_url : String) : String :=
  let u := resolveImageUrl base_url image_url
  let n := pyBasename (beforeQuery u)
  if n = "" ∨ ¬ n.data.contains '.' then "image_" ++ env.now ++ ".jpg"
  else n

/-- Model of `download_image` (lines 152–192).  The whole body runs inside a
catch-all `try`, so every failure (including `os.makedirs`) yields
`None`; an existing file of the computed name is reused without a
download. -/
def download_image (env : Env) (image_url save_dir base_url : String)
    (st : St) : Option String × St :=
  if image_url = "" then (none, st)
  else if env.mkdirFails save_dir then (none, st)
  else
    let image_name := computedImageName env image_url base_url
    let save_path := save_dir ++ "/" ++ image_name
    if save_path ∈ st.files then (some image_name, st)
    else if env.imageOk (resolveImageUrl base_url image_url) then
      (some image_name,
       { st with files := st.files ++ [save_path],
                 events := st.events ++
                   [Event.imageDownloaded (resolveImageUrl base_url image_url)
                     image_name] })
    else (none, st)

/-- The `for img in images` loop of `download_content_images`
(lines 202–208): download each `src` and record its outcome. -/
def localizeImgs (env : Env) (save_dir base_url : String) :
    List String → St → List (String × Option String) × St
  | [], st => ([], st)
  | src :: rest, st =>
    if src = "" then
      let r := localizeImgs env save_dir base_url rest st
      ((src, none) :: r.1, r.2)
    else
      let d := download_image env src save_dir base_url st
      let r := localizeImgs env save_dir base_url rest d.2
      ((src, d.1) :: r.1, r.2)

/-- Model of `download_content_images` (lines 194–210): an empty content string
is returned unchanged; otherwise every `<img>` `src` is downloaded and
the soup is re-serialized with the successful ones rewritten. -/
def download_content_images (env : Env) (content_html save_dir base_url : String)
    (st : St) : String × St :=
  if content_html = "" then (content_html, st)
  else
    let r := localizeImgs env save_dir base_url (env.imgSrcs content_html) st
    (env.soupRewrite content_html r.1, r.2)

/-- Front-matter serialization inside `create_markdown_file`
(lines 218–225): one `key: "value"` line per non-null value, quotes
escaped. -/
def renderFM (fm : List (String × Option String)) : String :=
  fm.foldl (fun acc p =>
    match p.2 with
    | none => acc
    | some v => acc ++ p.1 ++ ": \"" ++ pyEscape v ++ "\"\n") ""

/-- The keys that actually appear in the rendered front-matter block
(those whose value is non-null). -/
def renderedKeys (fm : List (String × Option String)) : List String :=
  (fm.filter (fun p => p.2.isSome)).map Prod.fst

/-- Model of `create_markdown_file` (lines 212–235).  `os.makedirs` at line 215
is *outside* the `try` block: if it raises, the exception escapes
(`POutcome.exn`).  A write error is caught and returns `False`. -/
def create_markdown_file (env : Env) (save_path : String)
    (front_matter : List (String × Option String)) (content : String)
    (st : St) : POutcome × St :=
  if env.mkdirFails (pyDirname save_path) then (POutcome.exn, st)
  else
    let _md_content := "---\n" ++ renderFM front_matter ++ "---\n\n" ++ content
    if env.writeFails save_path then (POutcome.ok false, st)
    else (POutcome.ok true, { st with events := st.events ++ [Event.wrote save_path] })

/-- One iteration of the field-extraction loop of `process_url`
(lines 248–261): `none` when the rule is incomplete (the `continue`
branch), otherwise the field paired with its extracted value. -/
def extractOne (env : Env) (html base_url : String)
    (p : String × FieldRule) : Option (String × Option String) :=
  match p.2.xpath, p.2.attr with
  | some xp, some a => some (p.1, extract_field env html xp a base_url)
  | _, _ => none

/-- The field-extraction loop of `process_url` (lines 247–261): fields
whose rule lacks `xpath` or `attribute` are skipped entirely (absent
from the record); the others map to their extracted value (possibly
null). -/
def extractedRecord (env : Env) (cfg : Config) (html base_url : String) :
    List (String × Option String) :=
  cfg.fields.filterMap (extractOne env html base_url)

/-- Python truthiness of `extracted_fields.get(k)`: false when the key
is missing, its value is null, or its value is the empty string. -/
def pyTruthy : Option (Option String) → Bool
  | some (some s) => !(s == "")
  | _ => false

/-- Read a field's string value (used only where the code has already
established truthiness). -/
def getStr (ef : List (String × Option String)) (k : String) : String :=
  match ef.lookup k with
  | some (some s) => s
  | _ => ""

/-- Python dict assignment `d[k] = v`: replace in place when the key
exists, append otherwise. -/
def setKey (ef : List (String × Option String)) (k : String) (v : Option String) :
    List (String × Option String) :=
  if (ef.lookup k).isSome then
    ef.map (fun p => if p.1 = k then (k, v) else p)
  else ef ++ [(k, v)]

/-- Lines 268–293 of `process_url`: default the date, derive and store
the slug, and keep every field except `content` and `url` as
front-matter. -/
def finalFields (env : Env) (ef : List (String × Option String)) :
    List (String × Option String) :=
  let ef1 := if pyTruthy (ef.lookup "date") then ef
             else setKey ef "date" (some env.today)
  setKey ef1 "slug" (some (sanitize_filename (getStr ef1 "title")))

/-- The front-matter dict built at line 293. -/
def frontMatterOf (env : Env) (ef : List (String × Option String)) :
    List (String × Option String) :=
  (finalFields env ef).filter (fun p => p.1 ≠ "content" ∧ p.1 ≠ "url")

/-- Lines 296–304 of `process_url`: propagate the write outcome, and on
a successful write mark the URL as downloaded. -/
def recordResult (env : Env) (root url : String) (cr : POutcome × St) :
    POutcome × St :=
  match cr.1 with
  | POutcome.ok true => (POutcome.ok true, mark_as_downloaded env root url cr.2)
  | POutcome.ok false => (POutcome.ok false, cr.2)
  | POutcome.exn => (POutcome.exn, cr.2)

/-- Lines 268–304 of `process_url`: everything after the required-field
gate — date default, slug, image localization, Markdown conversion,
document write, and the ledger append on success. -/
def renderAndRecord (env : Env) (cfg : Config) (url base_url : String)
    (ef : List (String × Option String)) (st : St) : POutcome × St :=
  let ef2 := finalFields env ef
  let slug := getStr ef2 "slug"
  let date_prefix := getStr ef2 "date"
  let md_save_path := cfg.project_root ++ "/content/blog/" ++
    date_prefix ++ "-" ++ slug ++ ".md"
  let image_save_dir := cfg.project_root ++ "/static/images"
  let content_html := getStr ef2 "content"
  let dci := download_content_images env content_html image_save_dir base_url st
  let content_md := env.mdConvert dci.1
  recordResult env cfg.project_root url
    (create_markdown_file env md_save_path (frontMatterOf env ef)
      content_md dci.2)

/-- Model of `process_url` (lines 237–304): fetch, extract, gate on `title` and
`content`, then render and record. -/
def process_url (env : Env) (cfg : Config) (url : String) (st : St) :
    POutcome × St :=
  let st0 : St := { st with events := st.events ++ [Event.attempted url] }
  match fetch_page_content env url with
  | (none, _) => (POutcome.ok false, st0)
  | (some html_content, base_url) =>
    if html_content = "" then (POutcome.ok false, st0)
    else
      let ef := extractedRecord env cfg html_content base_url
      if pyTruthy (ef.lookup "title") && pyTruthy (ef.lookup "content") then
        renderAndRecord env cfg url base_url ef st0
      else (POutcome.ok false, st0)

/-- The per-URL loop of `main` (lines 327–336): the set of downloaded
URLs is read once before the loop; an exception escaping `process_url`
is caught by `main`'s top-level handler, which exits the process —
the loop result is `false` and the remaining URLs are not visited. -/
def processLoop (env : Env) (cfg : Config) (downloaded : List String) :
    List String → St → Bool × St
  | [], st => (true, st)
  | u :: rest, st =>
    if downloaded.contains u then processLoop env cfg downloaded rest st
    else
      let r := process_url env cfg u st
      match r.1 with
      | POutcome.exn => (false, r.2)
      | POutcome.ok _ => processLoop env cfg downloaded rest r.2

/-- Model of `main`'s orchestration (lines 306–342), from the point where the
URL list has been read: the ledger is loaded once, then the loop runs. -/
def main_run (env : Env) (cfg : Config) (urls : List String) (st : St) :
    Bool × St :=
  processLoop env cfg st.ledger urls st

/-! ## Concrete fixtures

Small closed environments used to evaluate the theorems on explicit
inputs (witnesses and counterexamples).
-/

/-- A complete extraction rule. -/
def okRule : FieldRule := ⟨some "//h1", some "text"⟩

/-- A minimal valid configuration: `title` and `content` only. -/
def cfgBase : Config := ⟨"/root", [("title", okRule), ("content", okRule)]⟩

/-- Configuration that also declares a field named `slug` with an
incomplete rule (no `xpath` key). -/
def cfgSlug : Config :=
  ⟨"/root", [("title", okRule), ("content", okRule),
    ("slug", ⟨none, some "text"⟩)]⟩

/-- Configuration with an incompletely-configured optional field
`author` (no `attribute` key). -/
def cfgAuthor : Config :=
  ⟨"/root", [("title", okRule), ("content", okRule),
    ("author", ⟨some "//a", none⟩)]⟩

/-- The empty initial state: no image files, empty ledger, no events. -/
def st0 : St := ⟨[], [], []⟩

/-- A benign environment: every fetch succeeds with a fixed body, every
XPath query finds the text node `"hello"`, there are no images, and no
filesystem call fails. -/
def envBase : Env where
  http := fun _ => some ⟨"<html>page</html>", "http://resolved.example/final"⟩
  xpathEval := fun _ _ => [XNode.textNode "hello"]
  imgSrcs := fun _ => []
  soupRewrite := fun h _ => h
  mdConvert := fun s => s
  imageOk := fun _ => true
  mkdirFails := fun _ => false
  writeFails := fun _ => false
  markFails := false
  today := "2026-01-02"
  now := "20260102030405"

/-- Like `envBase` but `os.makedirs` raises everywhere. -/
def envMkdirFail : Env := { envBase with mkdirFails := fun _ => true }

/-- Like `envBase` but the page at `http://req.example/a` redirects: the
response's resolved URL differs from the requested one. -/
def envRedirect : Env :=
  { envBase with
    http := fun u =>
      if u = "http://req.example/a" then some ⟨"B", "http://other.example/b"⟩
      else none }

/-- Like `envBase` but every XPath query returns an element whose `src`
attribute holds a relative reference. -/
def envSrc : Env :=
  { envBase with
    xpathEval := fun _ _ =>
      [XNode.elem [("src", "/img/x.png")] "t" "<img/>"] }

/-- Like `envBase` but no XPath query matches anything (extraction yields
null for every field). -/
def envNoMatch : Env := { envBase with xpathEval := fun _ _ => [] }

/-- Like `envBase` but every XPath query finds an empty text node, so
extraction yields the empty string. -/
def envEmptyText : Env :=
  { envBase with xpathEval := fun _ _ => [XNode.textNode ""] }

/-- Like `envBase` but the fetched body is empty. -/
def envEmptyBody : Env :=
  { envBase with http := fun u => some ⟨"", u⟩ }

/-- Like `envBase` but every fetch raises. -/
def envFetchFail : Env := { envBase with http := fun _ => none }

/-- A state in which the image `x.png` already exists in the images
directory. -/
def stHasImage : St := ⟨["/root/static/images/x.png"], [], []⟩

/-- Input exhibiting the truncation defect of `sanitize_filename`:
99 `a`s then `" b"`; the sanitized form is 101 characters long before
truncation, so `[:100]` cuts it to 99 `a`s plus a trailing dash. -/
def c4bad : String := String.mk (List.replicate 99 'a' ++ [' ', 'b'])

/-! # Theorems -/

/- ### Char lemmas -/

theorem char_eq_of_toNat {c d : Char} (h : c.toNat = d.toNat) : c = d :=
  Char.ext (UInt32.ext h)

theorem toNat_ofNat_valid (n : Nat) (h : n.isValidChar) : (Char.ofNat n).toNat = n := by
  rw [Char.ofNat, dif_pos h]
  simp [Char.ofNatAux, Char.toNat, UInt32.toNat, BitVec.toNat_ofNatLt]

theorem toLower_of_upper {c : Char} (h1 : 65 ≤ c.toNat) (h2 : c.toNat ≤ 90) :
    (Char.toLower c).toNat = c.toNat + 32 := by
  have hv : (c.toNat + 32).isValidChar := Or.inl (by omega)
  rw [Char.toLower]
  simp only [ge_iff_le]
  rw [if_pos ⟨h1, h2⟩]
  exact toNat_ofNat_valid _ hv

theorem toLower_eq_self {c : Char} (h : ¬(65 ≤ c.toNat ∧ c.toNat ≤ 90)) :
    Char.toLower c = c := by
  rw [Char.toLower]
  simp only [ge_iff_le]
  rw [if_neg h]

theorem toLower_idem (c : Char) : Char.toLower (Char.toLower c) = Char.toLower c := by
  by_cases h : 65 ≤ c.toNat ∧ c.toNat ≤ 90
  · have := toLower_of_upper h.1 h.2
    apply toLower_eq_self
    omega
  · rw [toLower_eq_self h]
    exact toLower_eq_self h

theorem isLower_of_toNat {c : Char} (h1 : 97 ≤ c.toNat) (h2 : c.toNat ≤ 122) :
    c.isLower = true := by
  rw [Char.isLower]
  simp only [Bool.and_eq_true, decide_eq_true_eq, ge_iff_le]
  exact ⟨h1, h2⟩

theorem isWordDash_toLower {c : Char} (h : isWordDash c = true) :
    isWordDash (Char.toLower c) = true := by
  by_cases hu : 65 ≤ c.toNat ∧ c.toNat ≤ 90
  · have ht := toLower_of_upper hu.1 hu.2
    have : (Char.toLower c).isLower = true := isLower_of_toNat (by omega) (by omega)
    simp [isWordDash, isWordChar, Char.isAlphanum, Char.isAlpha, this]
  · rw [toLower_eq_self hu]
    exact h

theorem beq_dash_toLower (c : Char) : (Char.toLower c == '-') = (c == '-') := by
  by_cases hu : 65 ≤ c.toNat ∧ c.toNat ≤ 90
  · have ht := toLower_of_upper hu.1 hu.2
    have h1 : (Char.toLower c == '-') = false := by
      simp only [beq_eq_false_iff_ne, ne_eq]
      intro he
      rw [he, show ('-' : Char).toNat = 45 from rfl] at ht
      omega
    have h2 : (c == '-') = false := by
      simp only [beq_eq_false_iff_ne, ne_eq]
      intro he
      rw [he] at hu
      rw [show ('-' : Char).toNat = 45 from rfl] at hu
      omega
    rw [h1, h2]
  · rw [toLower_eq_self hu]

theorem ne_space_of_isWordDash {c : Char} (h : isWordDash c = true) : c ≠ ' ' := by
  intro he
  subst he
  simp [isWordDash, isWordChar] at h

/- ### dropWhile / strip lemmas -/

theorem ddP_cons (p : Char → Bool) (c : Char) (t : List Char) :
    ddP p (c :: t) = if p c then ddP p t else c :: t := by
  simp [ddP, List.dropWhile_cons]

theorem ddP_idem (p : Char → Bool) : ∀ l : List Char, ddP p (ddP p l) = ddP p l
  | [] => rfl
  | a :: t => by
    by_cases hp : p a = true
    · rw [ddP_cons, if_pos hp]
      exact ddP_idem p t
    · rw [ddP_cons, if_neg hp, ddP_cons, if_neg hp]

theorem rdP_idem (p : Char → Bool) (l : List Char) : rdP p (rdP p l) = rdP p l := by
  simp only [rdP, List.reverse_reverse]
  rw [show List.dropWhile p (List.dropWhile p l.reverse) =
    ddP p (ddP p l.reverse) from rfl, ddP_idem]
  rfl

theorem ddP_append_ne_nil {p : Char → Bool} :
    ∀ (l₁ l₂ : List Char), ddP p l₁ ≠ [] →
      ddP p (l₁ ++ l₂) = ddP p l₁ ++ l₂
  | [], _, h => absurd rfl h
  | a :: t, l₂, h => by
    by_cases hp : p a = true
    · rw [ddP_cons, if_pos hp] at h
      rw [List.cons_append, ddP_cons, if_pos hp, ddP_cons, if_pos hp]
      exact ddP_append_ne_nil t l₂ h
    · rw [List.cons_append, ddP_cons, if_neg hp, ddP_cons, if_neg hp,
        List.cons_append]

theorem ddP_append_nil {p : Char → Bool} :
    ∀ (l₁ l₂ : List Char), ddP p l₁ = [] →
      ddP p (l₁ ++ l₂) = ddP p l₂
  | [], _, _ => rfl
  | a :: t, l₂, h => by
    by_cases hp : p a = true
    · rw [ddP_cons, if_pos hp] at h
      rw [List.cons_append, ddP_cons, if_pos hp]
      exact ddP_append_nil t l₂ h
    · rw [ddP_cons, if_neg hp] at h
      exact absurd h (by simp)

theorem rdP_nil_iff {p : Char → Bool} {t : List Char} :
    rdP p t = [] ↔ ddP p t.reverse = [] := by
  constructor
  · intro h
    have h2 : (rdP p t).reverse = [] := by rw [h]; rfl
    rwa [rdP, List.reverse_reverse] at h2
  · intro h
    rw [rdP, show List.dropWhile p t.reverse = ddP p t.reverse from rfl, h]
    rfl

theorem rdP_cons_of_ne {p : Char → Bool} {t : List Char} (c : Char)
    (h : rdP p t ≠ []) : rdP p (c :: t) = c :: rdP p t := by
  have hne : ddP p t.reverse ≠ [] := fun he => h (rdP_nil_iff.mpr he)
  simp only [rdP, List.reverse_cons]
  rw [show List.dropWhile p (t.reverse ++ [c]) = ddP p (t.reverse ++ [c]) from rfl,
    ddP_append_ne_nil t.reverse [c] hne]
  simp [ddP]

theorem rdP_cons_nil {p : Char → Bool} {t : List Char} (c : Char)
    (h : rdP p t = []) : rdP p (c :: t) = (if p c then [] else [c]) := by
  have hne : ddP p t.reverse = [] := rdP_nil_iff.mp h
  simp only [rdP, List.reverse_cons]
  rw [show List.dropWhile p (t.reverse ++ [c]) = ddP p (t.reverse ++ [c]) from rfl,
    ddP_append_nil t.reverse [c] hne]
  by_cases hp : p c = true
  · rw [show ddP p [c] = if p c then ddP p ([] : List Char) else [c] from ddP_cons p c [], if_pos hp, if_pos hp]
    rfl
  · rw [show ddP p [c] = if p c then ddP p ([] : List Char) else [c] from ddP_cons p c [], if_neg hp, if_neg hp]
    rfl

theorem dd_rd_comm (p : Char → Bool) : ∀ l : List Char, ddP p (rdP p l) = rdP p (ddP p l)
  | [] => rfl
  | c :: t => by
    by_cases hp : p c = true
    · by_cases ht : rdP p t = []
      · have hL : ddP p (rdP p (c :: t)) = [] := by
          rw [rdP_cons_nil c ht, if_pos hp]
          rfl
        have hR : rdP p (ddP p (c :: t)) = [] := by
          rw [ddP_cons, if_pos hp, ← dd_rd_comm p t, ht]
          rfl
        rw [hL, hR]
      · have hL : ddP p (rdP p (c :: t)) = rdP p (ddP p t) := by
          rw [rdP_cons_of_ne c ht, ddP_cons, if_pos hp, dd_rd_comm p t]
        have hR : rdP p (ddP p (c :: t)) = rdP p (ddP p t) := by
          rw [ddP_cons, if_pos hp]
        rw [hL, hR]
    · by_cases ht : rdP p t = []
      · have hL : ddP p (rdP p (c :: t)) = [c] := by
          rw [rdP_cons_nil c ht, if_neg hp, ddP_cons, if_neg hp]
        have hR : rdP p (ddP p (c :: t)) = [c] := by
          rw [ddP_cons, if_neg hp, rdP_cons_nil c ht, if_neg hp]
        rw [hL, hR]
      · have hL : ddP p (rdP p (c :: t)) = c :: rdP p t := by
          rw [rdP_cons_of_ne c ht, ddP_cons, if_neg hp]
        have hR : rdP p (ddP p (c :: t)) = c :: rdP p t := by
          rw [ddP_cons, if_neg hp, rdP_cons_of_ne c ht]
        rw [hL, hR]

theorem stripP_eq_of_fixed {p : Char → Bool} {l : List Char}
    (h1 : ddP p l = l) (h2 : rdP p l = l) : stripP p l = l := by
  rw [stripP, h1, h2]

theorem ddP_stripP (p : Char → Bool) (l : List Char) :
    ddP p (stripP p l) = stripP p l := by
  rw [stripP, dd_rd_comm, ddP_idem]

theorem rdP_stripP (p : Char → Bool) (l : List Char) :
    rdP p (stripP p l) = stripP p l := by
  rw [stripP, rdP_idem]

theorem mem_of_mem_ddP {p : Char → Bool} {l : List Char} {c : Char}
    (h : c ∈ ddP p l) : c ∈ l :=
  (List.dropWhile_sublist p).subset h

theorem mem_of_mem_rdP {p : Char → Bool} {l : List Char} {c : Char}
    (h : c ∈ rdP p l) : c ∈ l := by
  rw [rdP, List.mem_reverse] at h
  have := mem_of_mem_ddP h
  rwa [List.mem_reverse] at this

theorem mem_of_mem_stripP {p : Char → Bool} {l : List Char} {c : Char}
    (h : c ∈ stripP p l) : c ∈ l :=
  mem_of_mem_ddP (mem_of_mem_rdP h)

/- ### collapseDashes and the no-double-dash invariant -/

theorem noDD_cons_cons (a b : Char) (r : List Char) :
    noDD (a :: b :: r) = ((!(a == '-') || !(b == '-')) && noDD (b :: r)) := rfl

theorem noDD_tail {x : Char} {xs : List Char} (h : noDD (x :: xs) = true) :
    noDD xs = true := by
  cases xs with
  | nil => rfl
  | cons y ys =>
    rw [noDD_cons_cons, Bool.and_eq_true] at h
    exact h.2

theorem noDD_append_right : ∀ (l t : List Char), noDD (l ++ t) = true → noDD l = true
  | [], _, _ => rfl
  | [_], _, _ => rfl
  | a :: b :: r, t, h => by
    rw [List.cons_append, List.cons_append] at h
    rw [noDD_cons_cons] at h ⊢
    rw [Bool.and_eq_true] at h ⊢
    refine ⟨h.1, ?_⟩
    have := noDD_append_right (b :: r) t
    rw [List.cons_append] at this
    exact this h.2

theorem noDD_append_left : ∀ (l t : List Char), noDD (l ++ t) = true → noDD t = true
  | [], _, h => h
  | a :: l', t, h => by
    rw [List.cons_append] at h
    exact noDD_append_left l' t (noDD_tail h)

theorem noDD_snoc {a : Char} : ∀ {m : List Char}, noDD m = true →
    (∀ x, m.getLast? = some x → ¬(x = '-' ∧ a = '-')) → noDD (m ++ [a]) = true
  | [], _, _ => rfl
  | [b], _, hl => by
    have hba := hl b rfl
    rw [List.cons_append, List.nil_append, noDD_cons_cons, Bool.and_eq_true]
    refine ⟨?_, rfl⟩
    by_cases hb : b = '-'
    · have ha : ¬ a = '-' := fun ha => hba ⟨hb, ha⟩
      simp [ha]
    · simp [hb]
  | b :: c :: r, h, hl => by
    rw [noDD_cons_cons, Bool.and_eq_true] at h
    have hrec : noDD ((c :: r) ++ [a]) = true :=
      noDD_snoc h.2 (fun x hx => hl x (by rw [List.getLast?_cons_cons]; exact hx))
    rw [show (b :: c :: r) ++ [a] = b :: c :: (r ++ [a]) from by simp,
      noDD_cons_cons, Bool.and_eq_true]
    exact ⟨h.1, by simpa using hrec⟩

theorem noDD_reverse : ∀ {l : List Char}, noDD l = true → noDD l.reverse = true
  | [], _ => rfl
  | [_], _ => rfl
  | a :: b :: r, h => by
    rw [noDD_cons_cons, Bool.and_eq_true] at h
    rw [List.reverse_cons]
    apply noDD_snoc (noDD_reverse h.2)
    intro x hx hxa
    rw [List.getLast?_reverse, List.head?_cons] at hx
    have hxb : x = b := by
      injection hx with hv
      exact hv.symm
    have h1 := h.1
    have ha : (a == '-') = true := by simp [hxa.2]
    have hb : (b == '-') = true := by
      rw [← hxb]
      simp [hxa.1]
    rw [ha, hb] at h1
    simp at h1

theorem noDD_ddP {p : Char → Bool} {l : List Char} (h : noDD l = true) :
    noDD (ddP p l) = true := by
  have hsplit : l.takeWhile p ++ l.dropWhile p = l := List.takeWhile_append_dropWhile p l
  have := noDD_append_left (l.takeWhile p) (l.dropWhile p) (by rw [hsplit]; exact h)
  exact this

theorem noDD_rdP {p : Char → Bool} {l : List Char} (h : noDD l = true) :
    noDD (rdP p l) = true :=
  noDD_reverse (noDD_ddP (noDD_reverse h))

theorem noDD_stripP {p : Char → Bool} {l : List Char} (h : noDD l = true) :
    noDD (stripP p l) = true :=
  noDD_rdP (noDD_ddP h)

theorem headDash_collapse : ∀ (a : Char) (r : List Char),
    headDash (collapseDashes (a :: r)) = (a == '-')
  | _, [] => rfl
  | a, b :: r => by
    by_cases hc : a = '-' ∧ b = '-'
    · rw [collapseDashes, if_pos hc, headDash_collapse b r]
      simp [hc.1, hc.2]
    · rw [collapseDashes, if_neg hc]
      rfl

theorem noDD_collapse : ∀ l : List Char, noDD (collapseDashes l) = true
  | [] => rfl
  | [_] => rfl
  | a :: b :: r => by
    by_cases hc : a = '-' ∧ b = '-'
    · rw [collapseDashes, if_pos hc]
      exact noDD_collapse (b :: r)
    · rw [collapseDashes, if_neg hc]
      have ih := noDD_collapse (b :: r)
      have hhd := headDash_collapse b r
      cases hcb : collapseDashes (b :: r) with
      | nil => rfl
      | cons c t =>
        rw [hcb] at ih hhd
        rw [noDD_cons_cons, Bool.and_eq_true]
        refine ⟨?_, ih⟩
        have hct : (c == '-') = (b == '-') := hhd
        rw [hct]
        by_cases ha : a = '-'
        · have hb : ¬ b = '-' := fun hb => hc ⟨ha, hb⟩
          simp [hb]
        · simp [ha]

theorem collapse_eq_self : ∀ {l : List Char}, noDD l = true → collapseDashes l = l
  | [], _ => rfl
  | [_], _ => rfl
  | a :: b :: r, h => by
    rw [noDD_cons_cons, Bool.and_eq_true] at h
    have hc : ¬(a = '-' ∧ b = '-') := by
      intro hab
      have h1 := h.1
      simp [hab.1, hab.2] at h1
    rw [collapseDashes, if_neg hc, collapse_eq_self h.2]

theorem collapse_subset : ∀ {l : List Char} {c : Char},
    c ∈ collapseDashes l → c ∈ l
  | [], _, h => h
  | [_], _, h => h
  | a :: b :: r, c, h => by
    by_cases hc : a = '-' ∧ b = '-'
    · rw [collapseDashes, if_pos hc] at h
      exact List.mem_cons_of_mem a (collapse_subset h)
    · rw [collapseDashes, if_neg hc] at h
      rcases List.mem_cons.mp h with h1 | h1
      · exact h1 ▸ List.mem_cons_self a (b :: r)
      · exact List.mem_cons_of_mem a (collapse_subset h1)

theorem noDD_map_toLower : ∀ {l : List Char}, noDD l = true →
    noDD (l.map Char.toLower) = true
  | [], _ => rfl
  | [_], _ => rfl
  | a :: b :: r, h => by
    rw [noDD_cons_cons, Bool.and_eq_true] at h
    rw [List.map_cons, List.map_cons, noDD_cons_cons, Bool.and_eq_true]
    constructor
    · rw [beq_dash_toLower, beq_dash_toLower]
      exact h.1
    · rw [← List.map_cons]
      exact noDD_map_toLower h.2

/- ### Idempotence assembly -/

theorem sanitizeCore_fixed {m : List Char}
    (hmem : ∀ c ∈ m, isWordDash c = true ∧ Char.toLower c = c)
    (hdd : noDD m = true)
    (hl : ddP (fun c => c == '-') m = m)
    (hr : rdP (fun c => c == '-') m = m) :
    sanitizeCore m = m := by
  have h1 : m.map spaceToDash = m := by
    rw [List.map_congr_left (fun c hc => ?_)]
    · exact List.map_id m
    · show spaceToDash c = c
      rw [spaceToDash, if_neg (ne_space_of_isWordDash (hmem c hc).1)]
  have h2 : m.filter isWordDash = m :=
    List.filter_eq_self.mpr (fun c hc => (hmem c hc).1)
  have h3 : collapseDashes m = m := collapse_eq_self hdd
  have h4 : m.map Char.toLower = m := by
    rw [List.map_congr_left (fun c hc => (hmem c hc).2)]
    exact List.map_id m
  rw [sanitizeCore, h1, h2, h3, h4, stripDashes, stripP_eq_of_fixed hl hr]

theorem sanitizeCore_mem {l : List Char} {c : Char} (hc : c ∈ sanitizeCore l) :
    isWordDash c = true ∧ Char.toLower c = c := by
  rw [sanitizeCore, stripDashes] at hc
  have hY := mem_of_mem_stripP hc
  rcases List.mem_map.mp hY with ⟨b, hb, hbc⟩
  have hbF := collapse_subset hb
  have hbw : isWordDash b = true := List.of_mem_filter hbF
  constructor
  · rw [← hbc]
    exact isWordDash_toLower hbw
  · rw [← hbc]
    exact toLower_idem b

theorem sanitizeCore_noDD (l : List Char) : noDD (sanitizeCore l) = true := by
  rw [sanitizeCore, stripDashes]
  exact noDD_stripP (noDD_map_toLower (noDD_collapse _))

theorem sanitizeCore_ddP (l : List Char) :
    ddP (fun c => c == '-') (sanitizeCore l) = sanitizeCore l := by
  rw [sanitizeCore, stripDashes]
  exact ddP_stripP _ _

theorem sanitizeCore_rdP (l : List Char) :
    rdP (fun c => c == '-') (sanitizeCore l) = sanitizeCore l := by
  rw [sanitizeCore, stripDashes]
  exact rdP_stripP _ _

theorem sanitizeCore_sanitizeCore (l : List Char) :
    sanitizeCore (sanitizeCore l) = sanitizeCore l :=
  sanitizeCore_fixed (fun _ hc => sanitizeCore_mem hc) (sanitizeCore_noDD l)
    (sanitizeCore_ddP l) (sanitizeCore_rdP l)

theorem sanitize_filename_idem (s : String)
    (hlen : (sanitizeCore s.data).length ≤ 100) :
    sanitize_filename (sanitize_filename s) = sanitize_filename s := by
  have htake : (sanitizeCore s.data).take 100 = sanitizeCore s.data :=
    List.take_of_length_le hlen
  rw [sanitize_filename, sanitize_filename, htake]
  rw [show (String.mk (sanitizeCore s.data)).data = sanitizeCore s.data from rfl]
  rw [sanitizeCore_sanitizeCore, htake]

/-! ## `process_url` case analysis -/

theorem process_url_fetch_fail {env : Env} (cfg : Config) {url : String} (st : St)
    (h : env.http url = none) :
    process_url env cfg url st =
      (POutcome.ok false, { st with events := st.events ++ [Event.attempted url] }) := by
  unfold process_url fetch_page_content
  rw [h]

theorem process_url_empty_body {env : Env} (cfg : Config) {url : String} (st : St)
    {r : HttpResp} (h : env.http url = some r) (he : r.text = "") :
    process_url env cfg url st =
      (POutcome.ok false, { st with events := st.events ++ [Event.attempted url] }) := by
  unfold process_url fetch_page_content
  rw [h]
  simp [he]

theorem process_url_gate_fail {env : Env} {cfg : Config} {url : String} (st : St)
    {r : HttpResp} (h : env.http url = some r) (he : r.text ≠ "")
    (hg : (pyTruthy ((extractedRecord env cfg r.text url).lookup "title") &&
      pyTruthy ((extractedRecord env cfg r.text url).lookup "content")) = false) :
    process_url env cfg url st =
      (POutcome.ok false, { st with events := st.events ++ [Event.attempted url] }) := by
  unfold process_url fetch_page_content
  rw [h]
  simp [he, hg]

theorem process_url_gate_pass {env : Env} {cfg : Config} {url : String} (st : St)
    {r : HttpResp} (h : env.http url = some r) (he : r.text ≠ "")
    (hg : (pyTruthy ((extractedRecord env cfg r.text url).lookup "title") &&
      pyTruthy ((extractedRecord env cfg r.text url).lookup "content")) = true) :
    process_url env cfg url st =
      renderAndRecord env cfg url url (extractedRecord env cfg r.text url)
        { st with events := st.events ++ [Event.attempted url] } := by
  unfold process_url fetch_page_content
  rw [h]
  simp [he, hg]

/-! ## State invariants of the per-URL steps -/

theorem download_image_ledger (env : Env) (iu sd bu : String) (st : St) :
    (download_image env iu sd bu st).2.ledger = st.ledger := by
  unfold download_image
  dsimp only
  repeat' split
  all_goals rfl

theorem download_image_events (env : Env) (iu sd bu : String) (st : St) :
    ∃ δ, (download_image env iu sd bu st).2.events = st.events ++ δ := by
  unfold download_image
  dsimp only
  repeat' split
  all_goals first
    | exact ⟨[], (List.append_nil _).symm⟩
    | exact ⟨_, rfl⟩

theorem localizeImgs_ledger (env : Env) (sd bu : String) :
    ∀ (srcs : List String) (st : St),
      (localizeImgs env sd bu srcs st).2.ledger = st.ledger
  | [], _ => rfl
  | src :: rest, st => by
    unfold localizeImgs
    by_cases h : src = ""
    · rw [if_pos h]
      exact localizeImgs_ledger env sd bu rest st
    · rw [if_neg h]
      rw [localizeImgs_ledger env sd bu rest _]
      exact download_image_ledger env src sd bu st

theorem localizeImgs_events (env : Env) (sd bu : String) :
    ∀ (srcs : List String) (st : St),
      ∃ δ, (localizeImgs env sd bu srcs st).2.events = st.events ++ δ
  | [], st => ⟨[], (List.append_nil _).symm⟩
  | src :: rest, st => by
    unfold localizeImgs
    by_cases h : src = ""
    · rw [if_pos h]
      exact localizeImgs_events env sd bu rest st
    · rw [if_neg h]
      obtain ⟨δ1, h1⟩ := download_image_events env src sd bu st
      obtain ⟨δ2, h2⟩ := localizeImgs_events env sd bu rest
        (download_image env src sd bu st).2
      refine ⟨δ1 ++ δ2, ?_⟩
      rw [h2, h1, List.append_assoc]

theorem dci_ledger (env : Env) (c sd bu : String) (st : St) :
    (download_content_images env c sd bu st).2.ledger = st.ledger := by
  unfold download_content_images
  split
  · rfl
  · exact localizeImgs_ledger env sd bu _ st

theorem dci_events (env : Env) (c sd bu : String) (st : St) :
    ∃ δ, (download_content_images env c sd bu st).2.events = st.events ++ δ := by
  unfold download_content_images
  split
  · exact ⟨[], (List.append_nil _).symm⟩
  · exact localizeImgs_events env sd bu _ st

theorem create_mkdir_fail {env : Env} {p : String}
    (fm : List (String × Option String)) (c : String) (st : St)
    (h : env.mkdirFails (pyDirname p) = true) :
    create_markdown_file env p fm c st = (POutcome.exn, st) := by
  unfold create_markdown_file
  rw [if_pos h]

theorem create_write_fail {env : Env} {p : String}
    (fm : List (String × Option String)) (c : String) (st : St)
    (hm : env.mkdirFails (pyDirname p) = false) (hw : env.writeFails p = true) :
    create_markdown_file env p fm c st = (POutcome.ok false, st) := by
  unfold create_markdown_file
  rw [if_neg (by simp [hm]), if_pos hw]

theorem create_ok {env : Env} {p : String}
    (fm : List (String × Option String)) (c : String) (st : St)
    (hm : env.mkdirFails (pyDirname p) = false) (hw : env.writeFails p = false) :
    create_markdown_file env p fm c st =
      (POutcome.ok true, { st with events := st.events ++ [Event.wrote p] }) := by
  unfold create_markdown_file
  rw [if_neg (by simp [hm]), if_neg (by simp [hw])]

theorem recordResult_spec (env : Env) (root url path : String)
    (fm : List (String × Option String)) (content : String) (st1 : St) :
    (recordResult env root url
      (create_markdown_file env path fm content st1)).2.ledger = st1.ledger ∨
    ((recordResult env root url
        (create_markdown_file env path fm content st1)).1 = POutcome.ok true ∧
     (recordResult env root url
        (create_markdown_file env path fm content st1)).2.ledger =
          st1.ledger ++ [url] ∧
     ∃ pre, (recordResult env root url
        (create_markdown_file env path fm content st1)).2.events =
          pre ++ [Event.wrote path, Event.ledger url]) := by
  by_cases hm : env.mkdirFails (pyDirname path) = true
  · rw [create_mkdir_fail fm content st1 hm]
    left
    rfl
  · rw [Bool.not_eq_true] at hm
    by_cases hw : env.writeFails path = true
    · rw [create_write_fail fm content st1 hm hw]
      left
      rfl
    · rw [Bool.not_eq_true] at hw
      rw [create_ok fm content st1 hm hw]
      by_cases hmark : env.markFails = true
      · left
        unfold recordResult mark_as_downloaded
        rw [hmark]
        simp
      · rw [Bool.not_eq_true] at hmark
        right
        unfold recordResult mark_as_downloaded
        rw [hmark]
        refine ⟨rfl, rfl, st1.events, ?_⟩
        simp

theorem recordResult_no_exn {env : Env} {path : String} (root url : String)
    (fm : List (String × Option String)) (content : String) (st1 : St)
    (hm : env.mkdirFails (pyDirname path) = false) :
    (recordResult env root url
      (create_markdown_file env path fm content st1)).1 ≠ POutcome.exn := by
  by_cases hw : env.writeFails path = true
  · rw [create_write_fail fm content st1 hm hw]
    intro h
    exact POutcome.noConfusion h
  · rw [Bool.not_eq_true] at hw
    rw [create_ok fm content st1 hm hw]
    unfold recordResult
    intro h
    exact POutcome.noConfusion h

theorem recordResult_events (env : Env) (root url path : String)
    (fm : List (String × Option String)) (content : String) (st1 : St) :
    ∃ δ, (recordResult env root url
      (create_markdown_file env path fm content st1)).2.events =
        st1.events ++ δ := by
  by_cases hm : env.mkdirFails (pyDirname path) = true
  · rw [create_mkdir_fail fm content st1 hm]
    exact ⟨[], (List.append_nil _).symm⟩
  · rw [Bool.not_eq_true] at hm
    by_cases hw : env.writeFails path = true
    · rw [create_write_fail fm content st1 hm hw]
      exact ⟨[], (List.append_nil _).symm⟩
    · rw [Bool.not_eq_true] at hw
      rw [create_ok fm content st1 hm hw]
      unfold recordResult mark_as_downloaded
      by_cases hmark : env.markFails = true
      · rw [hmark]
        exact ⟨[Event.wrote path], rfl⟩
      · rw [Bool.not_eq_true] at hmark
        rw [hmark]
        refine ⟨[Event.wrote path, Event.ledger url], ?_⟩
        simp

theorem renderAndRecord_spec (env : Env) (cfg : Config) (url base_url : String)
    (ef : List (String × Option String)) (st : St) :
    (renderAndRecord env cfg url base_url ef st).2.ledger = st.ledger ∨
    ((renderAndRecord env cfg url base_url ef st).1 = POutcome.ok true ∧
     (renderAndRecord env cfg url base_url ef st).2.ledger = st.ledger ++ [url] ∧
     ∃ pre p, (renderAndRecord env cfg url base_url ef st).2.events =
       pre ++ [Event.wrote p, Event.ledger url]) := by
  unfold renderAndRecord
  dsimp only
  have hd := dci_ledger env (getStr (finalFields env ef) "content")
    (cfg.project_root ++ "/static/images") base_url st
  rcases recordResult_spec env cfg.project_root url
    (cfg.project_root ++ "/content/blog/" ++ getStr (finalFields env ef) "date"
      ++ "-" ++ getStr (finalFields env ef) "slug" ++ ".md")
    (frontMatterOf env ef)
    (env.mdConvert (download_content_images env
      (getStr (finalFields env ef) "content")
      (cfg.project_root ++ "/static/images") base_url st).1)
    (download_content_images env (getStr (finalFields env ef) "content")
      (cfg.project_root ++ "/static/images") base_url st).2 with h | ⟨h1, h2, pre, h3⟩
  · left
    rw [h, hd]
  · right
    refine ⟨h1, ?_, pre, _, h3⟩
    rw [h2, hd]

theorem renderAndRecord_no_exn {env : Env} (cfg : Config) (url base_url : String)
    (ef : List (String × Option String)) (st : St)
    (hmk : ∀ d, env.mkdirFails d = false) :
    (renderAndRecord env cfg url base_url ef st).1 ≠ POutcome.exn := by
  unfold renderAndRecord
  dsimp only
  exact recordResult_no_exn cfg.project_root url _ _ _ (hmk _)

theorem renderAndRecord_events (env : Env) (cfg : Config) (url base_url : String)
    (ef : List (String × Option String)) (st : St) :
    ∃ δ, (renderAndRecord env cfg url base_url ef st).2.events =
      st.events ++ δ := by
  unfold renderAndRecord
  dsimp only
  obtain ⟨δ1, h1⟩ := dci_events env (getStr (finalFields env ef) "content")
    (cfg.project_root ++ "/static/images") base_url st
  obtain ⟨δ2, h2⟩ := recordResult_events env cfg.project_root url
    (cfg.project_root ++ "/content/blog/" ++ getStr (finalFields env ef) "date"
      ++ "-" ++ getStr (finalFields env ef) "slug" ++ ".md")
    (frontMatterOf env ef)
    (env.mdConvert (download_content_images env
      (getStr (finalFields env ef) "content")
      (cfg.project_root ++ "/static/images") base_url st).1)
    (download_content_images env (getStr (finalFields env ef) "content")
      (cfg.project_root ++ "/static/images") base_url st).2
  exact ⟨δ1 ++ δ2, by rw [h2, h1, List.append_assoc]⟩

theorem process_url_cases (env : Env) (cfg : Config) (url : String) (st : St) :
    process_url env cfg url st =
      (POutcome.ok false, { st with events := st.events ++ [Event.attempted url] }) ∨
    ∃ r : HttpResp, env.http url = some r ∧ r.text ≠ "" ∧
      process_url env cfg url st =
        renderAndRecord env cfg url url (extractedRecord env cfg r.text url)
          { st with events := st.events ++ [Event.attempted url] } := by
  cases hf : env.http url with
  | none => exact Or.inl (process_url_fetch_fail cfg st hf)
  | some r =>
    by_cases he : r.text = ""
    · exact Or.inl (process_url_empty_body cfg st hf he)
    · cases hg : (pyTruthy ((extractedRecord env cfg r.text url).lookup "title") &&
        pyTruthy ((extractedRecord env cfg r.text url).lookup "content")) with
      | false => exact Or.inl (process_url_gate_fail st hf he hg)
      | true => exact Or.inr ⟨r, rfl, he, process_url_gate_pass st hf he hg⟩

theorem process_url_no_exn {env : Env} (cfg : Config) (url : String) (st : St)
    (hmk : ∀ d, env.mkdirFails d = false) :
    (process_url env cfg url st).1 ≠ POutcome.exn := by
  rcases process_url_cases env cfg url st with h | ⟨r, _, _, h⟩
  · rw [h]
    intro hc
    exact POutcome.noConfusion hc
  · rw [h]
    exact renderAndRecord_no_exn cfg url url _ _ hmk

theorem process_url_events (env : Env) (cfg : Config) (url : String) (st : St) :
    ∃ δ, (process_url env cfg url st).2.events =
      st.events ++ Event.attempted url :: δ := by
  rcases process_url_cases env cfg url st with h | ⟨r, _, _, h⟩
  · rw [h]
    exact ⟨[], rfl⟩
  · rw [h]
    obtain ⟨δ, hδ⟩ := renderAndRecord_events env cfg url url
      (extractedRecord env cfg r.text url)
      { st with events := st.events ++ [Event.attempted url] }
    refine ⟨δ, ?_⟩
    rw [hδ]
    simp

theorem process_url_ledger_spec (env : Env) (cfg : Config) (url : String) (st : St) :
    (process_url env cfg url st).2.ledger = st.ledger ∨
    ((process_url env cfg url st).1 = POutcome.ok true ∧
     (process_url env cfg url st).2.ledger = st.ledger ++ [url] ∧
     ∃ pre p, (process_url env cfg url st).2.events =
       pre ++ [Event.wrote p, Event.ledger url]) := by
  rcases process_url_cases env cfg url st with h | ⟨r, _, _, h⟩
  · rw [h]
    exact Or.inl rfl
  · rw [h]
    exact renderAndRecord_spec env cfg url url _ _

theorem processLoop_events (env : Env) (cfg : Config) (dl : List String) :
    ∀ (urls : List String) (st : St),
      ∃ δ, (processLoop env cfg dl urls st).2.events = st.events ++ δ
  | [], st => ⟨[], (List.append_nil _).symm⟩
  | u :: rest, st => by
    unfold processLoop
    dsimp only
    by_cases h : dl.contains u
    · rw [if_pos h]
      exact processLoop_events env cfg dl rest st
    · rw [if_neg h]
      obtain ⟨δ1, h1⟩ := process_url_events env cfg u st
      cases hpu : (process_url env cfg u st).1 with
      | exn =>
        exact ⟨Event.attempted u :: δ1, h1⟩
      | ok b =>
        obtain ⟨δ2, h2⟩ := processLoop_events env cfg dl rest
          (process_url env cfg u st).2
        refine ⟨(Event.attempted u :: δ1) ++ δ2, ?_⟩
        rw [h2, h1, List.append_assoc]

theorem processLoop_complete (env : Env) (cfg : Config) (dl : List String)
    (hmk : ∀ d, env.mkdirFails d = false) :
    ∀ (urls : List String) (st : St),
      (processLoop env cfg dl urls st).1 = true ∧
      (∀ u ∈ urls, dl.contains u = false →
        Event.attempted u ∈ (processLoop env cfg dl urls st).2.events)
  | [], st => ⟨rfl, by intro u hu; cases hu⟩
  | u :: rest, st => by
    unfold processLoop
    dsimp only
    by_cases h : dl.contains u
    · rw [if_pos h]
      obtain ⟨ih1, ih2⟩ := processLoop_complete env cfg dl hmk rest st
      refine ⟨ih1, ?_⟩
      intro u' hu' hcont
      rcases List.mem_cons.mp hu' with he | hr
      · rw [he] at hcont
        rw [hcont] at h
        exact absurd h (by simp)
      · exact ih2 u' hr hcont
    · rw [if_neg h]
      cases hpu : (process_url env cfg u st).1 with
      | exn => exact absurd hpu (process_url_no_exn cfg u st hmk)
      | ok b =>
        obtain ⟨ih1, ih2⟩ := processLoop_complete env cfg dl hmk rest
          (process_url env cfg u st).2
        refine ⟨ih1, ?_⟩
        intro u' hu' hcont
        rcases List.mem_cons.mp hu' with he | hr
        · subst he
          obtain ⟨δ1, h1⟩ := process_url_events env cfg u' st
          obtain ⟨δ2, h2⟩ := processLoop_events env cfg dl rest
            (process_url env cfg u' st).2
          rw [h2, h1]
          simp
        · exact ih2 u' hr hcont

/-! ## Extracted-record and front-matter key lemmas -/

theorem extractOne_key {env : Env} {html base : String}
    {p : String × FieldRule} {q : String × Option String}
    (h : extractOne env html base p = some q) : q.1 = p.1 := by
  unfold extractOne at h
  rcases hx : p.2.xpath with _ | xp <;> rcases ha : p.2.attr with _ | a <;>
    rw [hx, ha] at h
  · exact Option.noConfusion h
  · exact Option.noConfusion h
  · exact Option.noConfusion h
  · have := Option.some.inj h
    rw [← this]

theorem extractOne_incomplete {env : Env} {html base : String}
    {p : String × FieldRule} (h : p.2.xpath = none ∨ p.2.attr = none) :
    extractOne env html base p = none := by
  unfold extractOne
  rcases hx : p.2.xpath with _ | xp <;> rcases ha : p.2.attr with _ | a <;> try rfl
  rcases h with h | h
  · rw [hx] at h
    exact Option.noConfusion h
  · rw [ha] at h
    exact Option.noConfusion h

theorem lookup_filterMap_extract_none (env : Env) (html base f : String) :
    ∀ fields : List (String × FieldRule), (∀ q ∈ fields, q.1 ≠ f) →
      (fields.filterMap (extractOne env html base)).lookup f = none
  | [], _ => rfl
  | p :: rest, h => by
    rw [List.filterMap_cons]
    cases he : extractOne env html base p with
    | none =>
      exact lookup_filterMap_extract_none env html base f rest
        (fun q hq => h q (List.mem_cons_of_mem p hq))
    | some q =>
      obtain ⟨qk, qv⟩ := q
      have hk : qk = p.1 := extractOne_key he
      have hbeq : (f == qk) = false := by
        simp only [beq_eq_false_iff_ne, ne_eq]
        intro hfe
        exact h p (List.mem_cons_self p rest) (hk ▸ hfe).symm
      rw [List.lookup_cons, hbeq]
      exact lookup_filterMap_extract_none env html base f rest
        (fun q hq => h q (List.mem_cons_of_mem p hq))

theorem lookup_extractAux_none (env : Env) (html base f : String) (rule : FieldRule) :
    ∀ fields : List (String × FieldRule), (fields.map Prod.fst).Nodup →
      (f, rule) ∈ fields → (rule.xpath = none ∨ rule.attr = none) →
      (fields.filterMap (extractOne env html base)).lookup f = none
  | [], _, hmem, _ => absurd hmem (List.not_mem_nil _)
  | p :: rest, hnd, hmem, hinc => by
    rw [List.filterMap_cons]
    rcases List.mem_cons.mp hmem with he | hr
    · have hp : extractOne env html base p = none := by
        apply extractOne_incomplete
        rw [← he]
        exact hinc
      rw [hp]
      apply lookup_filterMap_extract_none
      intro q hq hqf
      have hnf : p.1 ∉ rest.map Prod.fst := by
        rw [List.map_cons, List.nodup_cons] at hnd
        exact hnd.1
      apply hnf
      have : p.1 = f := by rw [← he]
      rw [this, ← hqf]
      exact List.mem_map_of_mem Prod.fst hq
    · have hnd' : (rest.map Prod.fst).Nodup := by
        rw [List.map_cons, List.nodup_cons] at hnd
        exact hnd.2
      have hpf : p.1 ≠ f := by
        intro hpe
        rw [List.map_cons, List.nodup_cons] at hnd
        apply hnd.1
        rw [hpe]
        exact List.mem_map_of_mem Prod.fst hr
      cases he : extractOne env html base p with
      | none => exact lookup_extractAux_none env html base f rule rest hnd' hr hinc
      | some q =>
        obtain ⟨qk, qv⟩ := q
        have hk : qk = p.1 := extractOne_key he
        have hbeq : (f == qk) = false := by
          simp only [beq_eq_false_iff_ne, ne_eq]
          intro hfe
          exact hpf (hk ▸ hfe).symm
        rw [List.lookup_cons, hbeq]
        exact lookup_extractAux_none env html base f rule rest hnd' hr hinc

theorem lookup_extractedRecord_none {env : Env} {cfg : Config}
    {html base f : String} {rule : FieldRule}
    (hnd : (cfg.fields.map Prod.fst).Nodup)
    (hmem : (f, rule) ∈ cfg.fields)
    (hinc : rule.xpath = none ∨ rule.attr = none) :
    (extractedRecord env cfg html base).lookup f = none :=
  lookup_extractAux_none env html base f rule cfg.fields hnd hmem hinc

theorem mem_keys_setKey {ef : List (String × Option String)} {k : String}
    {v : Option String} {x : String}
    (hx : x ∈ (setKey ef k v).map Prod.fst) : x = k ∨ x ∈ ef.map Prod.fst := by
  unfold setKey at hx
  split at hx
  · rw [List.map_map] at hx
    rcases List.mem_map.mp hx with ⟨p, hp, hpx⟩
    by_cases hpk : p.1 = k
    · left
      rw [← hpx]
      simp [Function.comp, hpk]
    · right
      rw [← hpx]
      simp only [Function.comp, if_neg hpk]
      exact List.mem_map_of_mem Prod.fst hp
  · rw [List.map_append] at hx
    rcases List.mem_append.mp hx with h | h
    · right
      exact h
    · left
      simpa using h

theorem lookup_none_not_mem_keys {f : String} {ef : List (String × Option String)}
    (h : ef.lookup f = none) : f ∉ ef.map Prod.fst := by
  induction ef with
  | nil => simp
  | cons p t ih =>
    obtain ⟨k, v⟩ := p
    rw [List.lookup_cons] at h
    cases hbeq : (f == k) with
    | true =>
      rw [hbeq] at h
      exact Option.noConfusion h
    | false =>
      rw [hbeq] at h
      rw [List.map_cons]
      intro hmem
      rcases List.mem_cons.mp hmem with he | hr
      · rw [he] at hbeq
        simp at hbeq
      · exact ih h hr

theorem mem_keys_frontMatterOf {env : Env} {ef : List (String × Option String)}
    {x : String} (hx : x ∈ (frontMatterOf env ef).map Prod.fst) :
    x ∈ (finalFields env ef).map Prod.fst := by
  unfold frontMatterOf at hx
  exact ((List.filter_sublist _).map Prod.fst).subset hx

theorem mem_keys_finalFields {env : Env} {ef : List (String × Option String)}
    {x : String} (hx : x ∈ (finalFields env ef).map Prod.fst) :
    x = "slug" ∨ x = "date" ∨ x ∈ ef.map Prod.fst := by
  unfold finalFields at hx
  rcases mem_keys_setKey hx with h | h
  · exact Or.inl h
  · split at h
    · exact Or.inr (Or.inr h)
    · rcases mem_keys_setKey h with h2 | h2
      · exact Or.inr (Or.inl h2)
      · exact Or.inr (Or.inr h2)

theorem renderedKeys_sub {fm : List (String × Option String)} {x : String}
    (hx : x ∈ renderedKeys fm) : x ∈ fm.map Prod.fst := by
  unfold renderedKeys at hx
  exact ((List.filter_sublist _).map Prod.fst).subset hx

/-! ## Claim theorems -/

/-- Claim C1: if extraction yields a null (or missing) value for the
`title` or the `content` field, `process_url` returns failure before any
rendering: the only new event is the initial attempt, the ledger is
unchanged, and no document-write event occurs. -/
theorem C1_null_required_field_fails (env : Env) (cfg : Config)
    (url : String) (st : St) (r : HttpResp)
    (hf : env.http url = some r) (hne : r.text ≠ "")
    (hnull :
      (extractedRecord env cfg r.text url).lookup "title" = none ∨
      (extractedRecord env cfg r.text url).lookup "title" = some none ∨
      (extractedRecord env cfg r.text url).lookup "content" = none ∨
      (extractedRecord env cfg r.text url).lookup "content" = some none) :
    process_url env cfg url st =
      (POutcome.ok false,
        { st with events := st.events ++ [Event.attempted url] }) ∧
    (process_url env cfg url st).2.ledger = st.ledger ∧
    ∀ p, Event.wrote p ∈ (process_url env cfg url st).2.events →
      Event.wrote p ∈ st.events := by
  have hg : (pyTruthy ((extractedRecord env cfg r.text url).lookup "title") &&
      pyTruthy ((extractedRecord env cfg r.text url).lookup "content")) = false := by
    rcases hnull with h | h | h | h <;> rw [h] <;> simp [pyTruthy]
  have hmain := process_url_gate_fail st hf hne hg
  refine ⟨hmain, by rw [hmain], ?_⟩
  intro p hp
  rw [hmain] at hp
  rcases List.mem_append.mp hp with h | h
  · exact h
  · simp at h

/-- Claim C1 witness: with no XPath match, `title` extracts to null and
the URL fails with no writes and no ledger entry. -/
theorem C1_witness :
    process_url envNoMatch cfgBase "http://u1" st0 =
      (POutcome.ok false, ⟨[], [], [Event.attempted "http://u1"]⟩) :=
  (C1_null_required_field_fails envNoMatch cfgBase "http://u1" st0
    ⟨"<html>page</html>", "http://resolved.example/final"⟩ rfl (by decide)
    (Or.inr (Or.inl (by decide)))).1

/-- Claim C2: in every run of `process_url` the ledger either is left
unchanged, or — exactly when the outcome is success — gains the URL,
and then the event trace ends with a successful document write
immediately followed by the ledger append. -/
theorem C2_ledger_only_after_write (env : Env) (cfg : Config)
    (url : String) (st : St) :
    (process_url env cfg url st).2.ledger = st.ledger ∨
    ((process_url env cfg url st).1 = POutcome.ok true ∧
     (process_url env cfg url st).2.ledger = st.ledger ++ [url] ∧
     ∃ pre p, (process_url env cfg url st).2.events =
       pre ++ [Event.wrote p, Event.ledger url]) :=
  process_url_ledger_spec env cfg url st

/-- Claim C3 (amended): when directory creation never fails, no
exception escapes `process_url`, the orchestration loop completes, and
every URL not in the preloaded ledger is attempted. -/
theorem C3_no_exception_escapes (env : Env) (cfg : Config)
    (downloaded urls : List String) (st : St)
    (hmk : ∀ d, env.mkdirFails d = false) :
    (∀ u st', (process_url env cfg u st').1 ≠ POutcome.exn) ∧
    (processLoop env cfg downloaded urls st).1 = true ∧
    ∀ u ∈ urls, downloaded.contains u = false →
      Event.attempted u ∈ (processLoop env cfg downloaded urls st).2.events :=
  ⟨fun u st' => process_url_no_exn cfg u st' hmk,
   (processLoop_complete env cfg downloaded hmk urls st).1,
   fun u hu hc => (processLoop_complete env cfg downloaded hmk urls st).2 u hu hc⟩

/-- Claim C3 witness: a concrete two-URL run with a benign filesystem
completes and reaches the second URL. -/
theorem C3_witness :
    (processLoop envBase cfgBase [] ["http://u1", "http://u2"] st0).1 = true ∧
    Event.attempted "http://u2" ∈
      (processLoop envBase cfgBase [] ["http://u1", "http://u2"] st0).2.events :=
  ⟨(C3_no_exception_escapes envBase cfgBase [] ["http://u1", "http://u2"] st0
      (fun _ => rfl)).2.1,
   (C3_no_exception_escapes envBase cfgBase [] ["http://u1", "http://u2"] st0
      (fun _ => rfl)).2.2 "http://u2" (by decide) rfl⟩

/-- Claim C3 counterexample: `os.makedirs` in `create_markdown_file` is
outside the `try` block; when it raises, the exception escapes
`process_url`, `main`'s top-level handler terminates the run, and the
second URL is never attempted. -/
theorem C3_mkdir_exception_halts_loop :
    (process_url envMkdirFail cfgBase "http://u1" st0).1 = POutcome.exn ∧
    (processLoop envMkdirFail cfgBase [] ["http://u1", "http://u2"] st0).1 = false ∧
    Event.attempted "http://u2" ∉
      (processLoop envMkdirFail cfgBase [] ["http://u1", "http://u2"] st0).2.events := by
  refine ⟨by decide, by decide, by decide⟩

/-- Claim C4 (amended): `sanitize_filename` maps
`"Hello, World!  Foo"` to `"hello-world-foo"`, and — being a pure
function — is deterministic; it is idempotent on every ASCII input
whose sanitized form is not cut by the final 100-character truncation
(truncation can leave a trailing dash that a second application
strips). -/
theorem C4_sanitize_deterministic_idempotent :
    sanitize_filename "Hello, World!  Foo" = "hello-world-foo" ∧
    ∀ s : String, (∀ c ∈ s.data, c.toNat < 128) →
      (sanitizeCore s.data).length ≤ 100 →
      sanitize_filename (sanitize_filename s) = sanitize_filename s :=
  ⟨by decide, fun s _ hlen => sanitize_filename_idem s hlen⟩

/-- Claim C4 witness: idempotence at a concrete short title. -/
theorem C4_idem_witness :
    sanitize_filename (sanitize_filename "My First Post") =
      sanitize_filename "My First Post" :=
  C4_sanitize_deterministic_idempotent.2 "My First Post" (by decide) (by decide)

/-- Claim C4 counterexample: on 99 `a`s followed by `" b"` the
sanitized result is truncated to 99 `a`s plus a trailing dash, and a
second application strips that dash — `sanitize_filename` is not
idempotent on all inputs. -/
theorem C4_truncation_breaks_idempotence :
    sanitize_filename (sanitize_filename c4bad) ≠ sanitize_filename c4bad := by
  decide

/-- Claim C5 (amended): on success the fetcher returns the response
body paired with the *originally requested* URL (`return response.text,
url`), and it is this requested URL — not `response.url` — that
`process_url` threads into field extraction and image localization as
the base URL. -/
theorem C5_fetch_returns_requested_url (env : Env) (url : String)
    (r : HttpResp) (hf : env.http url = some r) :
    fetch_page_content env url = (some r.text, url) ∧
    (r.text ≠ "" → ∀ (cfg : Config) (st : St),
      process_url env cfg url st =
        (if pyTruthy ((extractedRecord env cfg r.text url).lookup "title") &&
            pyTruthy ((extractedRecord env cfg r.text url).lookup "content") then
          renderAndRecord env cfg url url (extractedRecord env cfg r.text url)
            { st with events := st.events ++ [Event.attempted url] }
        else
          (POutcome.ok false,
            { st with events := st.events ++ [Event.attempted url] }))) := by
  constructor
  · unfold fetch_page_content
    rw [hf]
  · intro hne cfg st
    cases hg : (pyTruthy ((extractedRecord env cfg r.text url).lookup "title") &&
        pyTruthy ((extractedRecord env cfg r.text url).lookup "content")) with
    | false =>
      rw [if_neg (by simp [hg])]
      exact process_url_gate_fail st hf hne hg
    | true =>
      rw [if_pos (by simp [hg])]
      exact process_url_gate_pass st hf hne hg

/-- Claim C5 witness: the fetcher's returned base URL is the requested
one even when the response was redirected. -/
theorem C5_witness :
    fetch_page_content envRedirect "http://req.example/a" =
      (some "B", "http://req.example/a") :=
  (C5_fetch_returns_requested_url envRedirect "http://req.example/a"
    ⟨"B", "http://other.example/b"⟩ (by decide)).1

/-- Claim C5 counterexample: after a redirect the resolved URL differs
from the requested one, yet `fetch_page_content` returns the requested
URL; the spec's resolved-URL fetcher disagrees with the code's. -/
theorem C5_resolved_url_not_returned :
    fetch_page_content envRedirect "http://req.example/a" =
      (some "B", "http://req.example/a") ∧
    fetch_page_content_specResolved envRedirect "http://req.example/a" =
      (some "B", "http://other.example/b") ∧
    ("http://req.example/a" : String) ≠ "http://other.example/b" := by
  refine ⟨by decide, by decide, by decide⟩

/-- Claim C6 (amended): with an attribute mode other than `text` or
`html`, `extract_field` returns null whatever attributes the selected
element carries: line 127 reads the attribute from the BeautifulSoup
document object built around the serialized element, whose attribute
dict is empty, so no value is ever extracted and the relative-URL
resolution at lines 129–130 is unreachable. -/
theorem C6_attribute_mode_always_null (env : Env)
    (html xp attr base : String) (attrs : List (String × String))
    (text outer : String) (rest : List XNode)
    (hx : env.xpathEval html xp = XNode.elem attrs text outer :: rest)
    (ht : attr ≠ "text") (hh : attr ≠ "html") :
    extract_field env html xp attr base = none := by
  unfold extract_field
  rw [hx]
  dsimp only
  rw [if_neg ht, if_neg hh]
  rfl

/-- Claim C6 witness: even with a relative `src` value present on the
element, the code's attribute branch yields null. -/
theorem C6_null_witness :
    extract_field envSrc "<html>page</html>" "//img" "src"
      "https://example.com/a/b" = none :=
  C6_attribute_mode_always_null envSrc "<html>page</html>" "//img" "src"
    "https://example.com/a/b" [("src", "/img/x.png")] "t" "<img/>" [] rfl
    (by decide) (by decide)

/-- Claim C6 counterexample: at an element carrying `src="/img/x.png"`
and base `https://example.com/a/b`, `extract_field` returns null — not
the resolved URL the claim asserts — while the spec-worded extractor
that reads the element's own attribute dict returns it. -/
theorem C6_src_value_not_resolved :
    extract_field envSrc "<html>page</html>" "//img" "src"
      "https://example.com/a/b" = none ∧
    (none : Option String) ≠
      some (urljoin "https://example.com/a/b" "/img/x.png") ∧
    extract_field_specAttr envSrc "<html>page</html>" "//img" "src"
      "https://example.com/a/b" = some "https://example.com/img/x.png" := by
  refine ⟨by decide, by decide, by decide⟩

/-- Claim C7: when the computed local filename already exists in the
destination directory, `download_image` downloads nothing and returns
the existing name; hence two distinct remote URLs mapping to the same
name cause exactly one download — the second call reuses the file and
changes nothing. -/
theorem C7_existing_image_reused :
    (∀ (env : Env) (image_url save_dir base_url : String) (st : St),
      env.mkdirFails save_dir = false →
      image_url ≠ "" →
      (save_dir ++ "/" ++ computedImageName env image_url base_url) ∈ st.files →
      download_image env image_url save_dir base_url st =
        (some (computedImageName env image_url base_url), st)) ∧
    (∀ (env : Env) (u1 u2 save_dir base_url : String) (st : St),
      u1 ≠ u2 →
      env.mkdirFails save_dir = false →
      u1 ≠ "" → u2 ≠ "" →
      computedImageName env u1 base_url = computedImageName env u2 base_url →
      (save_dir ++ "/" ++ computedImageName env u1 base_url) ∉ st.files →
      env.imageOk (resolveImageUrl base_url u1) = true →
      (download_image env u1 save_dir base_url st).2.events =
        st.events ++ [Event.imageDownloaded (resolveImageUrl base_url u1)
          (computedImageName env u1 base_url)] ∧
      download_image env u2 save_dir base_url
          (download_image env u1 save_dir base_url st).2 =
        (some (computedImageName env u2 base_url),
          (download_image env u1 save_dir base_url st).2)) := by
  have hskip : ∀ (env : Env) (image_url save_dir base_url : String) (st : St),
      env.mkdirFails save_dir = false →
      image_url ≠ "" →
      (save_dir ++ "/" ++ computedImageName env image_url base_url) ∈ st.files →
      download_image env image_url save_dir base_url st =
        (some (computedImageName env image_url base_url), st) := by
    intro env image_url save_dir base_url st hm hu hmem
    unfold download_image
    rw [if_neg hu, if_neg (by simp [hm]), if_pos hmem]
  refine ⟨hskip, ?_⟩
  intro env u1 u2 save_dir base_url st _h12 hm h1 h2 hn hnot hok
  have hd1 : download_image env u1 save_dir base_url st =
      (some (computedImageName env u1 base_url),
       { st with
         files := st.files ++
           [save_dir ++ "/" ++ computedImageName env u1 base_url],
         events := st.events ++
           [Event.imageDownloaded (resolveImageUrl base_url u1)
             (computedImageName env u1 base_url)] }) := by
    unfold download_image
    rw [if_neg h1, if_neg (by simp [hm]), if_neg hnot, if_pos hok]
  constructor
  · rw [hd1]
  · rw [hd1]
    apply hskip env u2 save_dir base_url _ hm h2
    rw [← hn]
    exact List.mem_append_right _ (List.mem_singleton_self _)

/-- Claim C7 witness: `x.png` already exists, so the download is
skipped and the existing name is returned with the state unchanged. -/
theorem C7_witness :
    download_image envBase "http://img.example/x.png" "/root/static/images"
      "http://base.example/p" stHasImage = (some "x.png", stHasImage) :=
  C7_existing_image_reused.1 envBase "http://img.example/x.png"
    "/root/static/images" "http://base.example/p" stHasImage rfl (by decide)
    (by decide)

/-- Claim C8: a successful response with an empty body is handled by
`process_url` exactly like a fetch failure — the URL fails with no
extraction, no write and no ledger entry, and the result coincides with
that of an environment where the fetch raises. -/
theorem C8_empty_body_like_fetch_failure (env env2 : Env) (cfg : Config)
    (url : String) (st : St) (r : HttpResp)
    (hf : env.http url = some r) (hempty : r.text = "")
    (hf2 : env2.http url = none) :
    process_url env cfg url st =
      (POutcome.ok false,
        { st with events := st.events ++ [Event.attempted url] }) ∧
    process_url env cfg url st = process_url env2 cfg url st := by
  have h1 := process_url_empty_body cfg st hf hempty
  have h2 := process_url_fetch_fail cfg st hf2
  exact ⟨h1, by rw [h1, h2]⟩

/-- Claim C8 witness: an empty body and a failing fetch produce the
same concrete result. -/
theorem C8_witness :
    process_url envEmptyBody cfgBase "http://u1" st0 =
      (POutcome.ok false, ⟨[], [], [Event.attempted "http://u1"]⟩) ∧
    process_url envEmptyBody cfgBase "http://u1" st0 =
      process_url envFetchFail cfgBase "http://u1" st0 :=
  C8_empty_body_like_fetch_failure envEmptyBody envFetchFail cfgBase
    "http://u1" st0 ⟨"", "http://u1"⟩ (by decide) rfl rfl

/-- Claim C9: the required-field gate tests Python truthiness, not just
null — an empty-string `title` or `content` fails the URL exactly like
a null one: no document write, no ledger entry. -/
theorem C9_empty_required_field_fails (env : Env) (cfg : Config)
    (url : String) (st : St) (r : HttpResp)
    (hf : env.http url = some r) (hne : r.text ≠ "")
    (hempty :
      (extractedRecord env cfg r.text url).lookup "title" = some (some "") ∨
      (extractedRecord env cfg r.text url).lookup "content" = some (some "")) :
    process_url env cfg url st =
      (POutcome.ok false,
        { st with events := st.events ++ [Event.attempted url] }) ∧
    (process_url env cfg url st).2.ledger = st.ledger := by
  have hg : (pyTruthy ((extractedRecord env cfg r.text url).lookup "title") &&
      pyTruthy ((extractedRecord env cfg r.text url).lookup "content")) = false := by
    rcases hempty with h | h <;> rw [h] <;> simp [pyTruthy]
  have hmain := process_url_gate_fail st hf hne hg
  exact ⟨hmain, by rw [hmain]⟩

/-- Claim C9 witness: an empty extracted title fails the URL. -/
theorem C9_witness :
    process_url envEmptyText cfgBase "http://u1" st0 =
      (POutcome.ok false, ⟨[], [], [Event.attempted "http://u1"]⟩) :=
  (C9_empty_required_field_fails envEmptyText cfgBase "http://u1" st0
    ⟨"<html>page</html>", "http://resolved.example/final"⟩ rfl (by decide)
    (Or.inl (by decide))).1

/-- Claim C10 (amended): a configured field whose rule lacks `xpath` or
`attribute` — other than the always-recomputed `slug` and `date` — is
skipped at extraction, absent from the extracted record (not merely
null), and never appears among the rendered front-matter keys; if that
field is `title` or `content`, `process_url` fails on every run with no
write and no ledger entry. -/
theorem C10_incomplete_rule_field_absent (env : Env) (cfg : Config)
    (f : String) (rule : FieldRule) (html base url : String) (st : St)
    (hnd : (cfg.fields.map Prod.fst).Nodup)
    (hmem : (f, rule) ∈ cfg.fields)
    (hinc : rule.xpath = none ∨ rule.attr = none)
    (hslug : f ≠ "slug") (hdate : f ≠ "date") :
    (extractedRecord env cfg html base).lookup f = none ∧
    f ∉ renderedKeys (frontMatterOf env (extractedRecord env cfg html base)) ∧
    ((f = "title" ∨ f = "content") →
      process_url env cfg url st =
        (POutcome.ok false,
          { st with events := st.events ++ [Event.attempted url] })) := by
  have hlk : ∀ (h b : String), (extractedRecord env cfg h b).lookup f = none :=
    fun h b => lookup_extractedRecord_none hnd hmem hinc
  refine ⟨hlk html base, ?_, ?_⟩
  · intro hmem2
    have hk := mem_keys_frontMatterOf (renderedKeys_sub hmem2)
    rcases mem_keys_finalFields hk with h | h | h
    · exact hslug h
    · exact hdate h
    · exact lookup_none_not_mem_keys (hlk html base) h
  · intro hforf
    cases hf : env.http url with
    | none => exact process_url_fetch_fail cfg st hf
    | some r =>
      by_cases he : r.text = ""
      · exact process_url_empty_body cfg st hf he
      · apply process_url_gate_fail st hf he
        rcases hforf with h | h <;> subst h
        · rw [hlk r.text url]
          simp [pyTruthy]
        · rw [hlk r.text url]
          simp [pyTruthy]

/-- Claim C10 witness: the incompletely-configured optional field
`author` is absent from the record and from the rendered front-matter
keys. -/
theorem C10_witness :
    (extractedRecord envBase cfgAuthor "<html>page</html>" "http://u1").lookup
      "author" = none ∧
    "author" ∉ renderedKeys (frontMatterOf envBase
      (extractedRecord envBase cfgAuthor "<html>page</html>" "http://u1")) :=
  ⟨(C10_incomplete_rule_field_absent envBase cfgAuthor "author"
      ⟨some "//a", none⟩ "<html>page</html>" "http://u1" "http://u1" st0
      (by decide) (by decide) (Or.inr rfl) (by decide) (by decide)).1,
   (C10_incomplete_rule_field_absent envBase cfgAuthor "author"
      ⟨some "//a", none⟩ "<html>page</html>" "http://u1" "http://u1" st0
      (by decide) (by decide) (Or.inr rfl) (by decide) (by decide)).2.1⟩

/-- Claim C10 counterexample: a configured field named `slug` with an
incomplete rule is skipped at extraction (absent from the record), yet
`process_url` recomputes and stores a slug, so the key *does* appear in
the rendered front-matter of a successfully written document. -/
theorem C10_slug_field_reappears :
    (("slug", (⟨none, some "text"⟩ : FieldRule)) ∈ cfgSlug.fields) ∧
    (extractedRecord envBase cfgSlug "<html>page</html>" "http://u1").lookup
      "slug" = none ∧
    "slug" ∈ renderedKeys (frontMatterOf envBase
      (extractedRecord envBase cfgSlug "<html>page</html>" "http://u1")) ∧
    (process_url envBase cfgSlug "http://u1" st0).1 = POutcome.ok true := by
  refine ⟨by decide, by decide, by decide, by decide⟩

end HugoCrawler
